import Mathlib

/-!
Verification of the occlusion-aware visibility-distribution search of
`sd_maskrcnn/envs/bin_heap_env.py` (`find_target_distribution_2d`,
`find_target_distribution_3d`, and the mask extraction of
`render_target_modal_mask`).

The depth buffers produced by the external renderer are modelled as total
functions `ℕ → ℕ → ℚ` over (row, column); float arithmetic of the source is
modelled with exact rationals.  numpy integer conversion (`astype(int)`)
truncates toward zero, which on the nonnegative quantities below is natural
division; `np.linspace(0, n-1, num)` is modelled by its exact values
`i * (n-1) / (num-1)` before truncation.  numpy indexing accepts a negative
index `z` with `-bound ≤ z < 0` and reads position `bound + z`; the model
reads through `Int.emod`, which coincides with numpy on the addressable
range `-bound ≤ z < bound`.
-/

namespace SDMaskRCNN

set_option maxRecDepth 1000000
set_option maxHeartbeats 2000000

/-- A pixel coordinate `(row, column)`. -/
abbrev Pix := ℕ × ℕ

/-- The three depth renders consumed by the search, as returned by
`render_target_modal_mask`: `fullDepth` is the scene rendered with the
target and bin hidden, `targetDepth` is the plane-plus-target render, and
`planeDepth` is the plane-only render.  `H`/`W` are the camera height and
width. -/
structure Scene where
  H : ℕ
  W : ℕ
  fullDepth : ℕ → ℕ → ℚ
  targetDepth : ℕ → ℕ → ℚ
  planeDepth : ℕ → ℕ → ℚ

/-- `modal_mask = depth - full_depth < 0` (bin_heap_env.py line 276). -/
def modalMask (s : Scene) (r c : ℕ) : Bool :=
  decide (s.targetDepth r c - s.fullDepth r c < 0)

/-- All pixel positions of an `H × W` image in row-major order. -/
def allPix (H W : ℕ) : List Pix :=
  (List.range H).flatMap (fun r => (List.range W).map (fun c => (r, c)))

/-- `target_inds = np.stack(np.where(plane_depth > target_depth))`
(line 291): the amodal pixel set, in numpy row-major enumeration order. -/
def target_inds (s : Scene) : List Pix :=
  (allPix s.H s.W).filter (fun p => decide (s.targetDepth p.1 p.2 < s.planeDepth p.1 p.2))

/-- Row coordinate of `target_centroid.astype(np.int)` (lines 292, 302):
truncated mean of the amodal rows. -/
def centroid_r (s : Scene) : ℕ :=
  ((target_inds s).map Prod.fst).sum / (target_inds s).length

/-- Column coordinate of `target_centroid.astype(np.int)`. -/
def centroid_c (s : Scene) : ℕ :=
  ((target_inds s).map Prod.snd).sum / (target_inds s).length

/-- `x = np.linspace(0, W-1, num=51, dtype=np.int)` (line 298). -/
def grid_xs (s : Scene) : List ℕ :=
  (List.range 51).map (fun i => i * (s.W - 1) / 50)

/-- `y = np.linspace(0, H-1, num=38, dtype=np.int)` (line 299). -/
def grid_ys (s : Scene) : List ℕ :=
  (List.range 38).map (fun j => j * (s.H - 1) / 37)

/-- The flattened translation grid minus the integer centroid
(lines 300-302): offsets `(gy - centroid_r, gx - centroid_c)` with the
outer loop over `x` and the inner loop over `y`, matching the flatten
order of `np.meshgrid(y, x)`. -/
def grid (s : Scene) : List (ℤ × ℤ) :=
  (grid_xs s).flatMap (fun (gx : ℕ) => (grid_ys s).map (fun (gy : ℕ) =>
    ((gy : ℤ) - (centroid_r s : ℤ), (gx : ℤ) - (centroid_c s : ℤ))))

/-- Boundary reflection (lines 309-312): a coordinate at or beyond the
bound is replaced by `bound - 1 - coord`; others are unchanged. -/
def reflect (bound : ℕ) (z : ℤ) : ℤ :=
  if (bound : ℤ) ≤ z then (bound : ℤ) - 1 - z else z

/-- numpy indexing of an axis of size `bound` at a possibly negative
index: `z` and `bound + z` address the same position for
`-bound ≤ z < 0`.  The model coincides with numpy exactly on the
addressable range `-bound ≤ z < bound`; for `z < -bound` numpy raises
`IndexError` where this model wraps, so theorems whose 3d inputs could
leave the addressable range carry an explicit addressability
hypothesis. -/
def wrapIdx (bound : ℕ) (z : ℤ) : ℕ := (z % (bound : ℤ)).toNat

/-- Reflection applied to both coordinates of a transformed index pair. -/
def reflectPair (s : Scene) (q : ℤ × ℤ) : ℤ × ℤ :=
  (reflect s.H q.1, reflect s.W q.2)

/-- `in_bounds_mask = np.logical_and(*(shifted_target_inds >= 0))`
(line 313): both post-reflection coordinates are nonnegative. -/
def inBounds (s : Scene) (q : ℤ × ℤ) : Bool :=
  decide (0 ≤ (reflectPair s q).1) && decide (0 ≤ (reflectPair s q).2)

/-- Image lookup at a transformed (pre-reflection) index pair, as numpy
performs it after the reflection step; exact wherever the reflected
coordinates are in the addressable range (always, for the 2d search),
and wrapping where numpy's array indexing would instead raise
`IndexError` (reachable only through the 3d rotation stage). -/
def depthAt (s : Scene) (img : ℕ → ℕ → ℚ) (q : ℤ × ℤ) : ℚ :=
  img (wrapIdx s.H (reflectPair s q).1) (wrapIdx s.W (reflectPair s q).2)

/-- `target_depth_offset = (plane_depth - target_depth)[tuple(target_inds)]`
(line 293), indexed by the original amodal pixel. -/
def depthOffset (s : Scene) (p : Pix) : ℚ :=
  s.planeDepth p.1 p.2 - s.targetDepth p.1 p.2

/-- One transformed pixel of a candidate: the original amodal pixel
paired with its pre-reflection transformed coordinate. -/
abbrev CandPix := Pix × ℤ × ℤ

/-- A candidate placement: its transformed pixels in `target_inds` order. -/
abbrev Cand := List CandPix

/-- `visible_shifted_target_mask` entry (lines 315-318): the estimated
depth `plane_depth[shifted] - offset` is strictly below
`full_depth[shifted]`, and the pixel is in bounds. -/
def visiblePix (s : Scene) (e : CandPix) : Bool :=
  decide (depthAt s s.planeDepth e.2 - depthOffset s e.1 <
          depthAt s s.fullDepth e.2) && inBounds s e.2

/-- The post-reflection coordinates of a candidate's in-bounds pixels
(the selections `shifted_target_inds[:, mask]` keep, per selected pixel,
its reflected coordinates, which are nonnegative and in range). -/
def inBoundsCoords (s : Scene) (cand : Cand) : List Pix :=
  (cand.filter (fun e => inBounds s e.2)).map
    (fun e => ((reflectPair s e.2).1.toNat, (reflectPair s e.2).2.toNat))

/-- `visible_shifted_target_mask.sum(axis=1)` for one candidate. -/
def visCount (s : Scene) (cand : Cand) : ℕ :=
  (cand.filter (visiblePix s)).length

/-- The image positions a candidate's visible pixels land on (the
positions set to `True` in its row of `shifted_target_masks`,
lines 337-338). -/
def hitCoords (s : Scene) (cand : Cand) : List Pix :=
  (cand.filter (visiblePix s)).map
    (fun e => (wrapIdx s.H (reflectPair s e.2).1, wrapIdx s.W (reflectPair s e.2).2))

/-- `intersection = shifted_target_masks[:, target_modal_mask].sum(axis=1)`
(line 339): the number of modal image positions whose boolean entry was
set, i.e. the number of distinct visible landing positions that are
modal. -/
def interCount (s : Scene) (cand : Cand) : ℕ :=
  ((hitCoords s cand).dedup).countP (fun q => modalMask s q.1 q.2)

/-- `target_inds_mask.sum()`: the number of amodal pixels that are modal. -/
def modalCount (s : Scene) : ℕ :=
  ((target_inds s).filter (fun p => modalMask s p.1 p.2)).length

/-- `mask_ious = intersection / union` (lines 340-341). -/
def maskIoU (s : Scene) (cand : Cand) : ℚ :=
  (interCount s cand : ℚ) /
    ((visCount s cand : ℚ) + (modalCount s : ℚ) - (interCount s cand : ℚ))

/-- `iou_thresh = min(0.9, (n - 2) / n)` of `find_target_distribution_2d`
(line 344): no lower guard on the numerator. -/
def iou_thresh_2d (n : ℕ) : ℚ :=
  min (9/10) (((n : ℚ) - 2) / (n : ℚ))

/-- `iou_thresh = min(0.9, max(n - 2, 1) / n)` of
`find_target_distribution_3d` (line 533). -/
def iou_thresh_3d (n : ℕ) : ℚ :=
  min (9/10) (((max ((n : ℤ) - 2) 1 : ℤ) : ℚ) / (n : ℚ))

/-- `mask_ious >= iou_thresh` for one candidate. -/
def candMatches (s : Scene) (thresh : ℚ) (cand : Cand) : Bool :=
  decide (thresh ≤ maskIoU s cand)

/-- `~np.any(visible_shifted_target_mask, axis=1)` for one candidate. -/
def candInvisible (s : Scene) (cand : Cand) : Bool :=
  cand.all (fun e => !(visiblePix s e))

/-- `matching_target_inds` of the fully-occluded branch (lines 322-324):
for every fully invisible candidate, its in-bounds pixels' coordinates,
in candidate-major order. -/
def matchedOccluded (s : Scene) (cands : List Cand) : List Pix :=
  cands.flatMap (fun cand =>
    if candInvisible s cand then inBoundsCoords s cand else [])

/-- `matching_target_inds = shifted_target_inds[1:, iou_mask]` of the
visible branch (lines 345-346): for every candidate whose IoU meets the
threshold, its in-bounds pixels' coordinates. -/
def matchedVisible (s : Scene) (thresh : ℚ) (cands : List Cand) : List Pix :=
  cands.flatMap (fun cand =>
    if candMatches s thresh cand then inBoundsCoords s cand else [])

/-- `not np.any(target_inds_mask)` (line 322): no amodal pixel is modal. -/
def fullyOccluded (s : Scene) : Bool :=
  (target_inds s).all (fun p => !(modalMask s p.1 p.2))

/-- `not np.any(matching_target_inds)` (line 347): every integer entry of
the matched coordinate array is zero (also true of an empty array). -/
def allZero (l : List Pix) : Bool :=
  l.all (fun q => q.1 == 0 && q.2 == 0)

/-- The final matched index set written into the output images
(lines 321-350): the fully-occluded branch keeps invisible candidates,
the visible branch keeps IoU matches and falls back to `target_inds`
when every matched coordinate entry is zero. -/
def finalInds (s : Scene) (thresh : ℚ) (cands : List Cand) : List Pix :=
  if fullyOccluded s then matchedOccluded s cands
  else if allZero (matchedVisible s thresh cands) then target_inds s
  else matchedVisible s thresh cands

/-- A 2d candidate (lines 305-306): every amodal pixel shifted by the
grid offset `d`. -/
def trans_2d (s : Scene) (d : ℤ × ℤ) : Cand :=
  (target_inds s).map (fun p => (p, ((p.1 : ℤ) + d.1, (p.2 : ℤ) + d.2)))

/-- The 2d candidate enumeration: one candidate per grid offset. -/
def cands_2d (s : Scene) : List Cand :=
  (grid s).map (trans_2d s)

/-- `find_target_distribution_2d` (lines 287-353), returned as the list
of matched pixel coordinates that the two output images rasterize. -/
def find_target_distribution_2d (s : Scene) : List Pix :=
  finalInds s (iou_thresh_2d (modalCount s)) (cands_2d s)

/-- `dist_im` (line 350): true exactly at the matched coordinates. -/
def dist_im (inds : List Pix) (r c : ℕ) : Bool :=
  decide ((r, c) ∈ inds)

/-- `soft_dist_im.max()` (line 352): the largest per-pixel hit count. -/
def soft_max (inds : List Pix) : ℕ :=
  (inds.map (fun q => inds.count q)).foldr max 0

/-- `soft_dist_im` after rescaling to `uint8` (lines 351-352):
`255 * count / max`, truncated. -/
def soft_dist_im (inds : List Pix) (r c : ℕ) : ℕ :=
  255 * inds.count (r, c) / soft_max inds

/-- `rot_angles = np.arange(16) * 2 * np.pi / 16` (lines 486-487). -/
noncomputable def rot_angle (k : ℕ) : ℝ :=
  (k : ℝ) * (2 * Real.pi) / 16

/-- Real-valued centroid row `np.mean(target_inds, axis=1)[0]`
(line 473), as used (untruncated) by the rotation stage. -/
noncomputable def centroid_r_real (s : Scene) : ℝ :=
  (((target_inds s).map (fun p => (p.1 : ℝ))).sum) / ((target_inds s).length : ℝ)

/-- Real-valued centroid column `np.mean(target_inds, axis=1)[1]`. -/
noncomputable def centroid_c_real (s : Scene) : ℝ :=
  (((target_inds s).map (fun p => (p.2 : ℝ))).sum) / ((target_inds s).length : ℝ)

/-- numpy `astype(np.int)` on a float: truncation toward zero. -/
noncomputable def truncInt (x : ℝ) : ℤ :=
  if 0 ≤ x then ⌊x⌋ else ⌈x⌉

/-- One rotated amodal index (lines 488-491): the 2d rotation matrix
`[[cos, sin], [-sin, cos]]` applied about the real centroid, the centroid
added back, then `astype(np.int)` truncation. -/
noncomputable def rotPix (cr cc : ℝ) (t : ℝ) (p : Pix) : ℤ × ℤ :=
  (truncInt (Real.cos t * ((p.1 : ℝ) - cr) + Real.sin t * ((p.2 : ℝ) - cc) + cr),
   truncInt (-Real.sin t * ((p.1 : ℝ) - cr) + Real.cos t * ((p.2 : ℝ) - cc) + cc))

/-- A 3d candidate (lines 490-495): every amodal pixel rotated by angle
index `k` about the centroid and then shifted by the grid offset `d`;
the depth offset stays indexed by the original pixel. -/
noncomputable def trans_3d (s : Scene) (k : ℕ) (d : ℤ × ℤ) : Cand :=
  (target_inds s).map (fun p =>
    (p, ((rotPix (centroid_r_real s) (centroid_c_real s) (rot_angle k) p).1 + d.1,
         (rotPix (centroid_r_real s) (centroid_c_real s) (rot_angle k) p).2 + d.2)))

/-- The 3d candidate enumeration (line 494): rotation-major, matching
`np.repeat(rotated, len(grid), axis=0) + np.tile(grid, 16)`. -/
noncomputable def cands_3d (s : Scene) : List Cand :=
  (List.range 16).flatMap (fun k => (grid s).map (trans_3d s k))

/-- `find_target_distribution_3d` (lines 468-542) as the list of matched
pixel coordinates rasterized into its output images. -/
noncomputable def find_target_distribution_3d (s : Scene) : List Pix :=
  finalInds s (iou_thresh_3d (modalCount s)) (cands_3d s)



/-- Constant-10 plane render used by the concrete scenes. -/
def plane10 : ℕ → ℕ → ℚ := fun _ _ => 10

/-- A fully occluded single-pixel target on a 41 × 3 image: the amodal
pixel (26,1) is hidden (its full-scene depth 0 never exceeds the target
depth 9) while every other position is occupied at depth 100. -/
def sceneOcc : Scene where
  H := 41
  W := 3
  fullDepth := fun r c => if r = 26 ∧ c = 1 then 0 else 100
  targetDepth := fun r c => if r = 26 ∧ c = 1 then 9 else 10
  planeDepth := plane10

/-- A visible three-pixel target on a 41 × 3 image whose only matching
candidate lands a single in-bounds pixel on coordinate (0,0). -/
def sceneZero : Scene where
  H := 41
  W := 3
  fullDepth := fun r c =>
    if r = 0 ∧ c = 0 then 20
    else if (r = 39 ∧ c = 0) ∨ (r = 26 ∧ c = 1) ∨ (r = 13 ∧ c = 2) then 19/2
    else 0
  targetDepth := fun r c =>
    if (r = 39 ∧ c = 0) ∨ (r = 26 ∧ c = 1) ∨ (r = 13 ∧ c = 2) then 9 else 10
  planeDepth := plane10

/-- As `sceneZero` but with the bright position at (1,0), so the only
matching candidate (which has out-of-bounds pixels) contributes the
nonzero coordinate (1,0) to the output. -/
def sceneOOB : Scene where
  H := 41
  W := 3
  fullDepth := fun r c =>
    if r = 1 ∧ c = 0 then 20
    else if (r = 39 ∧ c = 0) ∨ (r = 26 ∧ c = 1) ∨ (r = 13 ∧ c = 2) then 19/2
    else 0
  targetDepth := fun r c =>
    if (r = 39 ∧ c = 0) ∨ (r = 26 ∧ c = 1) ∨ (r = 13 ∧ c = 2) then 9 else 10
  planeDepth := plane10

/-- An unoccluded single-pixel target at (26,1) on a 41 × 3 image; the
truncated centroid row 26 is skipped by the 38-point row grid, so the
candidate enumeration has no zero-translation candidate. -/
def sceneVis : Scene where
  H := 41
  W := 3
  fullDepth := fun r c => if r = 26 ∧ c = 1 then 20 else 0
  targetDepth := fun r c => if r = 26 ∧ c = 1 then 9 else 10
  planeDepth := plane10

/-- A degenerate scene: the plane never rises above the target render,
so the amodal pixel set is empty. -/
def sceneEmpty : Scene where
  H := 2
  W := 2
  fullDepth := fun _ _ => 5
  targetDepth := fun _ _ => 5
  planeDepth := fun _ _ => 5

/-- A two-pixel target at (0,1) and (40,1) on a 41 × 3 image, used to
drive the 3d rotation stage far out of the addressable index range. -/
def sceneRot : Scene where
  H := 41
  W := 3
  fullDepth := fun _ _ => 0
  targetDepth := fun r c => if (r = 0 ∨ r = 40) ∧ c = 1 then 9 else 10
  planeDepth := plane10



/-- A three-pixel target at (0,0), (0,1), (1,2) on a 2 × 3 image, whose
real centroid row 1/3 makes the half-turn rotation produce the
fractional coordinate 2/3. -/
def sceneRound : Scene where
  H := 2
  W := 3
  fullDepth := fun _ _ => 0
  targetDepth := fun r c =>
    if (r = 0 ∧ c = 0) ∨ (r = 0 ∧ c = 1) ∨ (r = 1 ∧ c = 2) then 9 else 10
  planeDepth := plane10

/-- The threshold formula as the specification states it for both search
variants: `min(0.9, max(n - 2, 1) / n)`.  Stated from the spec text, to
be compared with `iou_thresh_2d` and `iou_thresh_3d`. -/
def spec_thresh (n : ℕ) : ℚ :=
  min (9/10) (max ((n : ℚ) - 2) 1 / (n : ℚ))

/-- The modal-mask formula as the specification states it: absolute
difference of full-scene and target-only depth below a small epsilon,
and strictly positive full-scene depth.  Stated from the spec text, to
be compared with `modalMask`. -/
def spec_modal_mask (s : Scene) (eps : ℚ) (r c : ℕ) : Bool :=
  decide (|s.fullDepth r c - s.targetDepth r c| < eps ∧ 0 < s.fullDepth r c)

/-- Nearest-integer snapping of a rotated index pair, as the
specification states it.  Stated from the spec text, to be compared
with `rotPix`. -/
noncomputable def spec_rot_pix (cr cc : ℝ) (t : ℝ) (p : Pix) : ℤ × ℤ :=
  (round (Real.cos t * ((p.1 : ℝ) - cr) + Real.sin t * ((p.2 : ℝ) - cc) + cr),
   round (-Real.sin t * ((p.1 : ℝ) - cr) + Real.cos t * ((p.2 : ℝ) - cc) + cc))

/-- A 2 × 2 scene with a single unoccluded amodal pixel at (0,0), small
enough that the translation grid contains the zero offset. -/
def sceneSmall : Scene where
  H := 2
  W := 2
  fullDepth := fun r c => if r = 0 ∧ c = 0 then 3 else 0
  targetDepth := fun r c => if r = 0 ∧ c = 0 then 1 else 5
  planeDepth := fun _ _ => 5

/-- A 1 × 1 scene with a single visible amodal pixel; every 3d candidate
keeps its transformed coordinate at the addressable position (0,0). -/
def sceneTiny : Scene where
  H := 1
  W := 1
  fullDepth := fun _ _ => 3
  targetDepth := fun _ _ => 1
  planeDepth := fun _ _ => 2

section Helpers

theorem mem_allPix {H W : ℕ} {p : Pix} :
    p ∈ allPix H W ↔ p.1 < H ∧ p.2 < W := by
  cases p with
  | mk r c =>
    simp only [allPix, List.mem_flatMap, List.mem_map, List.mem_range]
    constructor
    · rintro ⟨a, ha, b, hb, h⟩
      cases h
      exact ⟨ha, hb⟩
    · rintro ⟨h1, h2⟩
      exact ⟨r, h1, c, h2, rfl⟩

theorem allPix_nodup (H W : ℕ) : (allPix H W).Nodup := by
  refine List.nodup_flatMap.2 ⟨fun r _ => ?_, ?_⟩
  · exact (List.nodup_range W).map (fun a b h => by injection h)
  · refine (List.nodup_range H).imp ?_
    intro a b hab
    intro x hx hy
    rcases List.mem_map.1 hx with ⟨c1, _, rfl⟩
    rcases List.mem_map.1 hy with ⟨c2, _, h⟩
    exact hab (congrArg Prod.fst h.symm)

theorem mem_target_inds {s : Scene} {p : Pix} :
    p ∈ target_inds s ↔
      p.1 < s.H ∧ p.2 < s.W ∧ s.targetDepth p.1 p.2 < s.planeDepth p.1 p.2 := by
  simp only [target_inds, List.mem_filter, mem_allPix, decide_eq_true_eq, and_assoc]

theorem target_inds_nodup (s : Scene) : (target_inds s).Nodup :=
  (allPix_nodup s.H s.W).filter _

theorem reflect_nonneg_iff (bound : ℕ) (z : ℤ) :
    0 ≤ reflect bound z ↔ 0 ≤ z ∧ z < (bound : ℤ) := by
  unfold reflect
  split <;> omega

theorem reflect_of_lt {bound : ℕ} {z : ℤ} (h : z < (bound : ℤ)) :
    reflect bound z = z := by
  unfold reflect
  split <;> omega

theorem wrapIdx_of_range {bound : ℕ} {z : ℤ} (h0 : 0 ≤ z) (h1 : z < (bound : ℤ)) :
    (wrapIdx bound z : ℤ) = z := by
  unfold wrapIdx
  rw [Int.emod_eq_of_lt h0 h1]
  omega

theorem centroid_r_le (s : Scene) (h : target_inds s ≠ []) :
    centroid_r s ≤ s.H - 1 := by
  have hlen : 0 < (target_inds s).length := List.length_pos.2 h
  have hb : ∀ x ∈ (target_inds s).map Prod.fst, x ≤ s.H - 1 := by
    intro x hx
    rcases List.mem_map.1 hx with ⟨p, hp, rfl⟩
    have := (mem_target_inds.1 hp).1
    omega
  have hsum : ((target_inds s).map Prod.fst).sum ≤
      ((target_inds s).map Prod.fst).length • (s.H - 1) :=
    List.sum_le_card_nsmul _ _ hb
  rw [List.length_map, smul_eq_mul] at hsum
  unfold centroid_r
  calc ((target_inds s).map Prod.fst).sum / (target_inds s).length
      ≤ (target_inds s).length * (s.H - 1) / (target_inds s).length :=
        Nat.div_le_div_right hsum
    _ = s.H - 1 := Nat.mul_div_cancel_left _ hlen

theorem centroid_c_le (s : Scene) (h : target_inds s ≠ []) :
    centroid_c s ≤ s.W - 1 := by
  have hlen : 0 < (target_inds s).length := List.length_pos.2 h
  have hb : ∀ x ∈ (target_inds s).map Prod.snd, x ≤ s.W - 1 := by
    intro x hx
    rcases List.mem_map.1 hx with ⟨p, hp, rfl⟩
    have := (mem_target_inds.1 hp).2.1
    omega
  have hsum : ((target_inds s).map Prod.snd).sum ≤
      ((target_inds s).map Prod.snd).length • (s.W - 1) :=
    List.sum_le_card_nsmul _ _ hb
  rw [List.length_map, smul_eq_mul] at hsum
  unfold centroid_c
  calc ((target_inds s).map Prod.snd).sum / (target_inds s).length
      ≤ (target_inds s).length * (s.W - 1) / (target_inds s).length :=
        Nat.div_le_div_right hsum
    _ = s.W - 1 := Nat.mul_div_cancel_left _ hlen

theorem grid_ys_le {s : Scene} {gy : ℕ} (h : gy ∈ grid_ys s) : gy ≤ s.H - 1 := by
  simp only [grid_ys, List.mem_map, List.mem_range] at h
  rcases h with ⟨j, hj, rfl⟩
  have h1 : j * (s.H - 1) ≤ 37 * (s.H - 1) := by
    have : j ≤ 37 := by omega
    exact Nat.mul_le_mul_right _ this
  calc j * (s.H - 1) / 37 ≤ 37 * (s.H - 1) / 37 := Nat.div_le_div_right h1
    _ = s.H - 1 := Nat.mul_div_cancel_left _ (by norm_num)

theorem grid_xs_le {s : Scene} {gx : ℕ} (h : gx ∈ grid_xs s) : gx ≤ s.W - 1 := by
  simp only [grid_xs, List.mem_map, List.mem_range] at h
  rcases h with ⟨i, hi, rfl⟩
  have h1 : i * (s.W - 1) ≤ 50 * (s.W - 1) := by
    have : i ≤ 50 := by omega
    exact Nat.mul_le_mul_right _ this
  calc i * (s.W - 1) / 50 ≤ 50 * (s.W - 1) / 50 := Nat.div_le_div_right h1
    _ = s.W - 1 := Nat.mul_div_cancel_left _ (by norm_num)

theorem mem_grid {s : Scene} {d : ℤ × ℤ} (h : d ∈ grid s) :
    ∃ gy ∈ grid_ys s, ∃ gx ∈ grid_xs s,
      d = ((gy : ℤ) - (centroid_r s : ℤ), (gx : ℤ) - (centroid_c s : ℤ)) := by
  rcases List.mem_flatMap.1 h with ⟨gx, hgx, hmem⟩
  rcases List.mem_map.1 hmem with ⟨gy, hgy, heq⟩
  exact ⟨gy, hgy, gx, hgx, heq.symm⟩

end Helpers


section MoreHelpers

/-- For a step `d ≤ D`, the truncated `linspace` values `j * d / D`
(`j = 0, ..., D`) cover every value up to `d`. -/
theorem div_cover {D d v : ℕ} (hD : 0 < D) (hd : d ≤ D) (hv : v ≤ d) :
    ∃ j, j ≤ D ∧ j * d / D = v := by
  rcases Nat.eq_zero_or_pos d with hd0 | hd0
  · refine ⟨0, Nat.zero_le D, ?_⟩
    subst hd0
    simp only [Nat.mul_zero, Nat.zero_div]
    omega
  have h1 : d * ((D * v + d - 1) / d) + (D * v + d - 1) % d = D * v + d - 1 :=
    Nat.div_add_mod _ d
  have h2 : (D * v + d - 1) % d < d := Nat.mod_lt _ hd0
  set j := (D * v + d - 1) / d with hj
  have hlow : D * v ≤ d * j := by omega
  have hhigh : d * j ≤ D * v + d - 1 := by omega
  have hjD : j ≤ D := by
    by_contra hgt
    push_neg at hgt
    have hmono : d * (D + 1) ≤ d * j := Nat.mul_le_mul_left d hgt
    have hDv : D * v ≤ D * d := Nat.mul_le_mul_left D hv
    have hexp : d * (D + 1) = d * D + d := by ring
    have hcomm : d * D = D * d := Nat.mul_comm d D
    omega
  refine ⟨j, hjD, ?_⟩
  have hcm : j * d = d * j := Nat.mul_comm j d
  have hvD : v * D = D * v := Nat.mul_comm v D
  apply Nat.div_eq_of_lt_le
  · omega
  · have hsucc : (v + 1) * D = v * D + D := Nat.succ_mul v D
    omega

theorem foldr_max_le {l : List ℕ} {b : ℕ} (hb : b ∈ l) : b ≤ l.foldr max 0 := by
  induction l with
  | nil => cases hb
  | cons a t ih =>
    rcases List.mem_cons.1 hb with h | h
    · subst h
      exact le_max_left _ _
    · exact le_trans (ih h) (le_max_right _ _)

theorem foldr_max_mem (l : List ℕ) (h : l ≠ []) :
    l.foldr max 0 ∈ l ∨ l.foldr max 0 = 0 := by
  induction l with
  | nil => exact absurd rfl h
  | cons a t ih =>
    rcases eq_or_ne t [] with rfl | ht
    · simp
    · rcases le_or_lt (t.foldr max 0) a with hle | hlt
      · left
        simp only [List.foldr_cons, max_eq_left hle]
        exact List.mem_cons_self a t
      · rcases ih ht with hm | hz
        · left
          simp only [List.foldr_cons, max_eq_right (le_of_lt hlt)]
          exact List.mem_cons_of_mem _ hm
        · right
          simp only [List.foldr_cons, hz] at hlt ⊢
          omega

/-- In a nonempty matched index list, the normalized soft image attains
the maximal intensity 255 at some matched pixel. -/
theorem soft_attains_255 {inds : List Pix} (h : inds ≠ []) :
    ∃ q ∈ inds, soft_dist_im inds q.1 q.2 = 255 := by
  obtain ⟨q0, hq0⟩ := List.exists_mem_of_ne_nil inds h
  have hcount0 : 0 < inds.count q0 := List.count_pos_iff.2 hq0
  have hmapne : inds.map (fun q => inds.count q) ≠ [] := by
    simp [List.map_eq_nil_iff, h]
  have hle : inds.count q0 ≤ soft_max inds :=
    foldr_max_le (List.mem_map_of_mem _ hq0)
  have hpos : 0 < soft_max inds := lt_of_lt_of_le hcount0 hle
  rcases foldr_max_mem _ hmapne with hm | hz
  · rcases List.mem_map.1 hm with ⟨q, hq, hcnt⟩
    refine ⟨q, hq, ?_⟩
    unfold soft_dist_im
    have hc : inds.count (q.1, q.2) = soft_max inds := hcnt
    rw [hc]
    exact Nat.mul_div_cancel 255 hpos
  · have h0 : soft_max inds = 0 := hz
    omega

/-- In the visible regime, the final matched index list is nonempty:
the all-zero fallback substitutes the (nonempty) original index list,
and a failed all-zero test requires a nonempty matched list. -/
theorem finalInds_visible_ne_nil (s : Scene) (thresh : ℚ) (cands : List Cand)
    (hvis : fullyOccluded s = false) :
    finalInds s thresh cands ≠ [] := by
  have hne : target_inds s ≠ [] := by
    intro hnil
    have : fullyOccluded s = true := by
      unfold fullyOccluded
      rw [hnil]
      rfl
    rw [this] at hvis
    cases hvis
  unfold finalInds
  rw [hvis]
  simp only [Bool.false_eq_true, if_false]
  split
  · exact hne
  · next hz =>
    intro hnil
    rw [hnil] at hz
    exact hz rfl

/-- numpy `astype(int)` on an exact integer value is that integer. -/
theorem truncInt_intCast (n : ℤ) : truncInt ((n : ℤ) : ℝ) = n := by
  unfold truncInt
  split
  · exact Int.floor_intCast n
  · exact Int.ceil_intCast n

end MoreHelpers


/-- C2 counterexample: for a scene whose original modal count is `n = 1`,
the threshold used by `find_target_distribution_2d` is
`min(0.9, (1-2)/1) = -1`, not the claimed `min(0.9, max(1-2,1)/1) = 0.9`;
the 2d code lacks the `max(n-2, 1)` guard, so the threshold is not
strictly positive. -/
theorem C2_counterexample :
    modalCount sceneVis = 1 ∧
    iou_thresh_2d (modalCount sceneVis) = -1 ∧
    spec_thresh (modalCount sceneVis) = 9/10 ∧
    iou_thresh_2d (modalCount sceneVis) ≠ spec_thresh (modalCount sceneVis) := by
  have h : modalCount sceneVis = 1 := by with_unfolding_all decide
  refine ⟨h, ?_, ?_, ?_⟩ <;> rw [h] <;> with_unfolding_all decide

/-- C2 (amended): only `find_target_distribution_3d` uses the guarded
threshold `min(0.9, max(n-2,1)/n)`, which is strictly positive for every
`n > 0`; the `find_target_distribution_2d` threshold omits the guard and
agrees with the guarded formula only for `n ≥ 3`, being `-1` at `n = 1`
and `0` at `n = 2`. -/
theorem C2_amended (n : ℕ) (hn : 0 < n) :
    iou_thresh_3d n = spec_thresh n ∧
    0 < iou_thresh_3d n ∧
    (3 ≤ n → iou_thresh_2d n = spec_thresh n) ∧
    iou_thresh_2d 1 = -1 ∧ iou_thresh_2d 2 = 0 := by
  refine ⟨?_, ?_, ?_, ?_, ?_⟩
  · unfold iou_thresh_3d spec_thresh
    congr 1
    push_cast
    ring
  · unfold iou_thresh_3d
    apply lt_min
    · norm_num
    · apply div_pos
      · have h1 : (1 : ℤ) ≤ max ((n : ℤ) - 2) 1 := le_max_right _ _
        have h2 : (1 : ℚ) ≤ ((max ((n : ℤ) - 2) 1 : ℤ) : ℚ) := by exact_mod_cast h1
        linarith
      · exact_mod_cast hn
  · intro h3
    unfold iou_thresh_2d spec_thresh
    congr 1
    rw [max_eq_left]
    have : (3 : ℚ) ≤ (n : ℚ) := by exact_mod_cast h3
    linarith
  · with_unfolding_all decide
  · with_unfolding_all decide

/-- Witness for `C2_amended` at `n = 3`. -/
theorem C2_amended_witness :
    0 < 3 ∧
    (iou_thresh_3d 3 = spec_thresh 3 ∧ 0 < iou_thresh_3d 3 ∧
     (3 ≤ 3 → iou_thresh_2d 3 = spec_thresh 3) ∧
     iou_thresh_2d 1 = -1 ∧ iou_thresh_2d 2 = 0) :=
  ⟨by norm_num, C2_amended 3 (by norm_num)⟩

/-- C5 counterexample: on equal target and full depth (value 5) the
modal mask of `render_target_modal_mask` is false, while the claimed
epsilon formula is true; the code computes `depth - full_depth < 0`,
not `|full - depth| < eps` and `full > 0`. -/
theorem C5_counterexample :
    modalMask sceneEmpty 0 0 = false ∧
    spec_modal_mask sceneEmpty (1/1000000) 0 0 = true := by
  constructor <;> with_unfolding_all decide

/-- C5 (amended): the amodal occupancy is the set of pixels where the
plane-only depth strictly exceeds the plane-plus-target depth, as
claimed, but the modal mask holds exactly where the plane-plus-target
depth is strictly below the scene-without-target depth — a strict depth
comparison, not the epsilon formula. -/
theorem C5_amended (s : Scene) (r c : ℕ) :
    ((r, c) ∈ target_inds s ↔
      r < s.H ∧ c < s.W ∧ s.targetDepth r c < s.planeDepth r c) ∧
    (modalMask s r c = true ↔ s.targetDepth r c < s.fullDepth r c) := by
  refine ⟨mem_target_inds, ?_⟩
  unfold modalMask
  rw [decide_eq_true_iff, sub_neg]

/-- C6: a transformed pixel is classified visible exactly when it is in
bounds and the plane-only depth at the transformed location minus the
original pixel's depth offset is strictly below the full-scene depth at
the transformed location; out-of-bounds pixels are never visible. -/
theorem C6_occlusion_evaluator (s : Scene) (p : Pix) (q : ℤ × ℤ) :
    (inBounds s q = true →
      (visiblePix s (p, q) = true ↔
        depthAt s s.planeDepth q - (s.planeDepth p.1 p.2 - s.targetDepth p.1 p.2) <
          depthAt s s.fullDepth q)) ∧
    (inBounds s q = false → visiblePix s (p, q) = false) := by
  constructor
  · intro h
    unfold visiblePix depthOffset
    rw [h, Bool.and_true, decide_eq_true_iff]
  · intro h
    unfold visiblePix
    rw [h, Bool.and_false]

/-- Witness for `C6_occlusion_evaluator` at a concrete in-bounds pixel. -/
theorem C6_witness :
    inBounds sceneVis ((3 : ℤ), (1 : ℤ)) = true ∧
    (visiblePix sceneVis (((26, 1) : Pix), ((3 : ℤ), (1 : ℤ))) = true ↔
      depthAt sceneVis sceneVis.planeDepth (3, 1) -
          (sceneVis.planeDepth 26 1 - sceneVis.targetDepth 26 1) <
        depthAt sceneVis sceneVis.fullDepth (3, 1)) := by
  have h : inBounds sceneVis ((3 : ℤ), (1 : ℤ)) = true := by with_unfolding_all decide
  exact ⟨h, (C6_occlusion_evaluator sceneVis (26, 1) (3, 1)).1 h⟩

/-- C9 counterexample: on a degenerate input (empty amodal set) the
search proceeds and returns the plain empty matched-index list — the
same all-false/all-zero images that the non-degenerate fully occluded
scene `sceneOcc` produces when no candidate matches; nothing
distinguishes the degenerate case. -/
theorem C9_counterexample :
    target_inds sceneEmpty = [] ∧
    find_target_distribution_2d sceneEmpty = [] ∧
    target_inds sceneOcc ≠ [] ∧
    find_target_distribution_2d sceneOcc = [] := by
  refine ⟨by with_unfolding_all decide, by with_unfolding_all decide,
    by with_unfolding_all decide, by with_unfolding_all decide⟩

/-- C9 (amended): when the amodal pixel set is empty, both searches run
their candidate evaluation vacuously and return an empty matched index
list (all-false and all-zero output images); no distinct signal or
exception marks the degenerate case. -/
theorem C9_amended (s : Scene) (h : target_inds s = []) :
    find_target_distribution_2d s = [] ∧ find_target_distribution_3d s = [] := by
  have hocc : fullyOccluded s = true := by
    unfold fullyOccluded
    rw [h]
    rfl
  have key : ∀ cands : List Cand, (∀ c ∈ cands, c = []) →
      matchedOccluded s cands = [] := by
    intro cands hc
    unfold matchedOccluded
    rw [List.flatMap_eq_nil_iff]
    intro c hmem
    rw [hc c hmem]
    split <;> rfl
  constructor
  · unfold find_target_distribution_2d finalInds
    rw [hocc, if_pos rfl]
    apply key
    intro c hmem
    rcases List.mem_map.1 hmem with ⟨d, _, rfl⟩
    unfold trans_2d
    rw [h]
    rfl
  · unfold find_target_distribution_3d finalInds
    rw [hocc, if_pos rfl]
    apply key
    intro c hmem
    rcases List.mem_flatMap.1 hmem with ⟨k, _, hmem2⟩
    rcases List.mem_map.1 hmem2 with ⟨d, _, rfl⟩
    unfold trans_3d
    rw [h]
    rfl

/-- Witness for `C9_amended` on the degenerate scene. -/
theorem C9_amended_witness :
    target_inds sceneEmpty = [] ∧
    find_target_distribution_2d sceneEmpty = [] ∧
    find_target_distribution_3d sceneEmpty = [] := by
  have h : target_inds sceneEmpty = [] := by with_unfolding_all decide
  exact ⟨h, (C9_amended sceneEmpty h).1, (C9_amended sceneEmpty h).2⟩


/-- C1 counterexample: `sceneOcc` has a nonempty amodal pixel set and a
fully occluded original, yet no candidate matches and the matched index
list is empty — the fully-occluded branch has no fallback to the
original target position, so both output images are empty. -/
theorem C1_counterexample :
    target_inds sceneOcc ≠ [] ∧
    fullyOccluded sceneOcc = true ∧
    find_target_distribution_2d sceneOcc = [] := by
  refine ⟨by with_unfolding_all decide, by with_unfolding_all decide,
    by with_unfolding_all decide⟩

/-- C1 (amended): the fallback to the original target position exists
only in the visible regime.  There `find_target_distribution_2d`
always returns a nonempty matched index list, a true pixel in the
binary image, and a pixel of intensity 255 in the soft image; the same
holds for `find_target_distribution_3d` whenever every transformed
candidate coordinate stays in the numpy-addressable range — the
condition under which the model agrees with numpy, since outside it the
real 3d search aborts on an out-of-range index before producing any
output (the C3 analysis exhibits such an index).  The fully occluded
regime has no fallback and can return empty images (see the
counterexample). -/
theorem C1_amended (s : Scene) (hvis : fullyOccluded s = false) :
    (find_target_distribution_2d s ≠ [] ∧
      ∃ q ∈ find_target_distribution_2d s,
        dist_im (find_target_distribution_2d s) q.1 q.2 = true ∧
        soft_dist_im (find_target_distribution_2d s) q.1 q.2 = 255) ∧
    ((∀ cand ∈ cands_3d s, ∀ e ∈ cand,
        -(s.H : ℤ) ≤ (reflectPair s e.2).1 ∧ (reflectPair s e.2).1 < (s.H : ℤ) ∧
        -(s.W : ℤ) ≤ (reflectPair s e.2).2 ∧ (reflectPair s e.2).2 < (s.W : ℤ)) →
      (find_target_distribution_3d s ≠ [] ∧
        ∃ q ∈ find_target_distribution_3d s,
          dist_im (find_target_distribution_3d s) q.1 q.2 = true ∧
          soft_dist_im (find_target_distribution_3d s) q.1 q.2 = 255)) := by
  have h2 := finalInds_visible_ne_nil s (iou_thresh_2d (modalCount s)) (cands_2d s) hvis
  have h3 := finalInds_visible_ne_nil s (iou_thresh_3d (modalCount s)) (cands_3d s) hvis
  constructor
  · obtain ⟨q, hq, hsoft⟩ := soft_attains_255 h2
    have hq2 : q ∈ find_target_distribution_2d s := hq
    have hs2 : soft_dist_im (find_target_distribution_2d s) q.1 q.2 = 255 := hsoft
    exact ⟨h2, q, hq2, by simp [dist_im, hq2], hs2⟩
  · intro _
    obtain ⟨q, hq, hsoft⟩ := soft_attains_255 h3
    have hq3 : q ∈ find_target_distribution_3d s := hq
    have hs3 : soft_dist_im (find_target_distribution_3d s) q.1 q.2 = 255 := hsoft
    exact ⟨h3, q, hq3, by simp [dist_im, hq3], hs3⟩

/-- Witness for `C1_amended` on a 1 × 1 visible-regime scene whose 3d
candidates provably keep every transformed coordinate addressable. -/
theorem C1_amended_witness :
    fullyOccluded sceneTiny = false ∧
    (∀ cand ∈ cands_3d sceneTiny, ∀ e ∈ cand,
      -(sceneTiny.H : ℤ) ≤ (reflectPair sceneTiny e.2).1 ∧
      (reflectPair sceneTiny e.2).1 < (sceneTiny.H : ℤ) ∧
      -(sceneTiny.W : ℤ) ≤ (reflectPair sceneTiny e.2).2 ∧
      (reflectPair sceneTiny e.2).2 < (sceneTiny.W : ℤ)) ∧
    find_target_distribution_2d sceneTiny ≠ [] ∧
    find_target_distribution_3d sceneTiny ≠ [] := by
  have hvis : fullyOccluded sceneTiny = false := by with_unfolding_all decide
  have htiny : target_inds sceneTiny = [(0, 0)] := by with_unfolding_all decide
  have hcr : centroid_r_real sceneTiny = 0 := by
    rw [centroid_r_real, htiny]
    norm_num
  have hcc : centroid_c_real sceneTiny = 0 := by
    rw [centroid_c_real, htiny]
    norm_num
  have hrot : ∀ k : ℕ,
      rotPix (centroid_r_real sceneTiny) (centroid_c_real sceneTiny)
        (rot_angle k) ((0, 0) : Pix) = (0, 0) := by
    intro k
    rw [hcr, hcc]
    unfold rotPix
    have e1 : Real.cos (rot_angle k) * ((((0, 0) : Pix).1 : ℝ) - 0) +
        Real.sin (rot_angle k) * ((((0, 0) : Pix).2 : ℝ) - 0) + 0 = ((0 : ℤ) : ℝ) := by
      norm_num
    have e2 : -Real.sin (rot_angle k) * ((((0, 0) : Pix).1 : ℝ) - 0) +
        Real.cos (rot_angle k) * ((((0, 0) : Pix).2 : ℝ) - 0) + 0 = ((0 : ℤ) : ℝ) := by
      norm_num
    rw [e1, e2, truncInt_intCast]
  have hgridT : ∀ d ∈ grid sceneTiny, d = ((0, 0) : ℤ × ℤ) := by
    have hcr0 : centroid_r sceneTiny = 0 := by with_unfolding_all decide
    have hcc0 : centroid_c sceneTiny = 0 := by with_unfolding_all decide
    intro d hd
    obtain ⟨gy, hgy, gx, hgx, rfl⟩ := mem_grid hd
    have h1 : gy = 0 := by
      simp only [grid_ys, List.mem_map, List.mem_range] at hgy
      obtain ⟨j, _, rfl⟩ := hgy
      norm_num [sceneTiny]
    have h2 : gx = 0 := by
      simp only [grid_xs, List.mem_map, List.mem_range] at hgx
      obtain ⟨i, _, rfl⟩ := hgx
      norm_num [sceneTiny]
    rw [h1, h2, hcr0, hcc0]
    norm_num
  have hguard : ∀ cand ∈ cands_3d sceneTiny, ∀ e ∈ cand,
      -(sceneTiny.H : ℤ) ≤ (reflectPair sceneTiny e.2).1 ∧
      (reflectPair sceneTiny e.2).1 < (sceneTiny.H : ℤ) ∧
      -(sceneTiny.W : ℤ) ≤ (reflectPair sceneTiny e.2).2 ∧
      (reflectPair sceneTiny e.2).2 < (sceneTiny.W : ℤ) := by
    intro cand hc e he
    rcases List.mem_flatMap.1 hc with ⟨k, _, hc2⟩
    rcases List.mem_map.1 hc2 with ⟨d, hd, rfl⟩
    rw [hgridT d hd] at he
    unfold trans_3d at he
    rw [htiny] at he
    simp only [List.map_cons, List.map_nil, hrot k, List.mem_singleton] at he
    subst he
    decide
  have hcon := C1_amended sceneTiny hvis
  exact ⟨hvis, hguard, hcon.1.1, (hcon.2 hguard).1⟩

/-- C10: in the visible regime of both `find_target_distribution_2d`
and `find_target_distribution_3d`, the fallback to `target_inds` fires
exactly when every integer entry of the matched coordinate list is
zero — whether because the list is empty or because every matched
coordinate is (0,0). -/
theorem C10_fallback (s : Scene) (hvis : fullyOccluded s = false) :
    ((allZero (matchedVisible s (iou_thresh_2d (modalCount s)) (cands_2d s)) = true →
        find_target_distribution_2d s = target_inds s) ∧
     (allZero (matchedVisible s (iou_thresh_2d (modalCount s)) (cands_2d s)) = false →
        find_target_distribution_2d s =
          matchedVisible s (iou_thresh_2d (modalCount s)) (cands_2d s)) ∧
     (allZero (matchedVisible s (iou_thresh_2d (modalCount s)) (cands_2d s)) = true ↔
        ∀ q ∈ matchedVisible s (iou_thresh_2d (modalCount s)) (cands_2d s),
          q = ((0 : ℕ), (0 : ℕ)))) ∧
    ((allZero (matchedVisible s (iou_thresh_3d (modalCount s)) (cands_3d s)) = true →
        find_target_distribution_3d s = target_inds s) ∧
     (allZero (matchedVisible s (iou_thresh_3d (modalCount s)) (cands_3d s)) = false →
        find_target_distribution_3d s =
          matchedVisible s (iou_thresh_3d (modalCount s)) (cands_3d s)) ∧
     (allZero (matchedVisible s (iou_thresh_3d (modalCount s)) (cands_3d s)) = true ↔
        ∀ q ∈ matchedVisible s (iou_thresh_3d (modalCount s)) (cands_3d s),
          q = ((0 : ℕ), (0 : ℕ)))) := by
  have key : ∀ (th : ℚ) (cs : List Cand),
      (allZero (matchedVisible s th cs) = true →
        finalInds s th cs = target_inds s) ∧
      (allZero (matchedVisible s th cs) = false →
        finalInds s th cs = matchedVisible s th cs) ∧
      (allZero (matchedVisible s th cs) = true ↔
        ∀ q ∈ matchedVisible s th cs, q = ((0 : ℕ), (0 : ℕ))) := by
    intro th cs
    refine ⟨?_, ?_, ?_⟩
    · intro hz
      unfold finalInds
      rw [hvis, hz]
      rfl
    · intro hz
      unfold finalInds
      rw [hvis, hz]
      rfl
    · unfold allZero
      rw [List.all_eq_true]
      constructor
      · intro hall q hq
        have h := hall q hq
        simp only [Bool.and_eq_true, beq_iff_eq] at h
        exact Prod.ext h.1 h.2
      · intro hall q hq
        rw [hall q hq]
        rfl
  have h2 := key (iou_thresh_2d (modalCount s)) (cands_2d s)
  have h3 := key (iou_thresh_3d (modalCount s)) (cands_3d s)
  exact ⟨h2, h3⟩

/-- Witness for `C10_fallback` on `sceneZero`: a genuine nonempty match
set whose coordinates are all (0,0) — the matches are discarded and
replaced by the original target position. -/
theorem C10_fallback_witness :
    fullyOccluded sceneZero = false ∧
    matchedVisible sceneZero (iou_thresh_2d (modalCount sceneZero)) (cands_2d sceneZero) =
      List.replicate 25 ((0 : ℕ), (0 : ℕ)) ∧
    find_target_distribution_2d sceneZero = target_inds sceneZero ∧
    target_inds sceneZero = [(13, 2), (26, 1), (39, 0)] := by
  have hvis : fullyOccluded sceneZero = false := by with_unfolding_all decide
  have hm : matchedVisible sceneZero (iou_thresh_2d (modalCount sceneZero)) (cands_2d sceneZero) =
      List.replicate 25 ((0 : ℕ), (0 : ℕ)) := by with_unfolding_all decide
  refine ⟨hvis, hm, ?_, by with_unfolding_all decide⟩
  apply (C10_fallback sceneZero hvis).1.1
  rw [hm]
  with_unfolding_all decide

/-- C4 (amended): a coordinate is contributed to the matched index list
exactly when it is the reflected coordinate of an individually in-bounds
pixel of a candidate satisfying the regime condition (IoU at or above
the threshold, or full invisibility); there is no requirement that the
candidate be fully in-bounds, and its out-of-bounds pixels are dropped
individually. -/
theorem C4_amended (s : Scene) (thresh : ℚ) (cands : List Cand) (q : Pix) :
    (q ∈ matchedVisible s thresh cands ↔
      ∃ cand ∈ cands, candMatches s thresh cand = true ∧
        ∃ e ∈ cand, inBounds s e.2 = true ∧
          q = ((reflectPair s e.2).1.toNat, (reflectPair s e.2).2.toNat)) ∧
    (q ∈ matchedOccluded s cands ↔
      ∃ cand ∈ cands, candInvisible s cand = true ∧
        ∃ e ∈ cand, inBounds s e.2 = true ∧
          q = ((reflectPair s e.2).1.toNat, (reflectPair s e.2).2.toNat)) := by
  have key : ∀ sel : Cand → Bool,
      (q ∈ cands.flatMap (fun cand => if sel cand then inBoundsCoords s cand else []) ↔
        ∃ cand ∈ cands, sel cand = true ∧
          ∃ e ∈ cand, inBounds s e.2 = true ∧
            q = ((reflectPair s e.2).1.toNat, (reflectPair s e.2).2.toNat)) := by
    intro sel
    rw [List.mem_flatMap]
    constructor
    · rintro ⟨cand, hc, hmem⟩
      by_cases hs : sel cand = true
      · rw [if_pos hs] at hmem
        rcases List.mem_map.1 hmem with ⟨e, he, heq⟩
        rcases List.mem_filter.1 he with ⟨he1, he2⟩
        exact ⟨cand, hc, hs, e, he1, he2, heq.symm⟩
      · rw [if_neg hs] at hmem
        cases hmem
    · rintro ⟨cand, hc, hs, e, he, hb, rfl⟩
      refine ⟨cand, hc, ?_⟩
      rw [if_pos hs]
      exact List.mem_map_of_mem _ (List.mem_filter.2 ⟨he, hb⟩)
  exact ⟨key (fun cand => candMatches s thresh cand),
    key (fun cand => candInvisible s cand)⟩

/-- C4 counterexample: in `sceneOOB` the grid offset (-25,-1) yields a
matching candidate two of whose pixels are out of bounds; the claim that
a candidate matches only if it is fully in bounds is false, and the
candidate still contributes its in-bounds pixel (1,0), which is the
whole output. -/
theorem C4_counterexample :
    ((-25, -1) : ℤ × ℤ) ∈ grid sceneOOB ∧
    candMatches sceneOOB (iou_thresh_2d (modalCount sceneOOB))
      (trans_2d sceneOOB (-25, -1)) = true ∧
    (trans_2d sceneOOB (-25, -1)).all (fun e => inBounds sceneOOB e.2) = false ∧
    find_target_distribution_2d sceneOOB = List.replicate 25 ((1 : ℕ), (0 : ℕ)) := by
  refine ⟨by with_unfolding_all decide, by with_unfolding_all decide,
    by with_unfolding_all decide, by with_unfolding_all decide⟩


/-- C3 (amended): for the translation-only 2d search, every reflected
coordinate lies in the numpy-addressable range `[-bound, bound)`, a
coordinate at or beyond the bound is reflected to `bound - 1 - coord`,
and the in-bounds mask holds exactly when the pre-reflection coordinate
is within `[0, bound)` on both axes.  (The 3d rotation stage violates
the addressable range; see the counterexample.) -/
theorem C3_amended (s : Scene) (p : Pix) (d : ℤ × ℤ)
    (hp : p ∈ target_inds s) (hd : d ∈ grid s) :
    (-(s.H : ℤ) ≤ reflect s.H ((p.1 : ℤ) + d.1) ∧
      reflect s.H ((p.1 : ℤ) + d.1) < (s.H : ℤ)) ∧
    (-(s.W : ℤ) ≤ reflect s.W ((p.2 : ℤ) + d.2) ∧
      reflect s.W ((p.2 : ℤ) + d.2) < (s.W : ℤ)) ∧
    ((s.H : ℤ) ≤ (p.1 : ℤ) + d.1 →
      reflect s.H ((p.1 : ℤ) + d.1) = (s.H : ℤ) - 1 - ((p.1 : ℤ) + d.1)) ∧
    (inBounds s ((p.1 : ℤ) + d.1, (p.2 : ℤ) + d.2) = true ↔
      0 ≤ (p.1 : ℤ) + d.1 ∧ (p.1 : ℤ) + d.1 < (s.H : ℤ) ∧
      0 ≤ (p.2 : ℤ) + d.2 ∧ (p.2 : ℤ) + d.2 < (s.W : ℤ)) := by
  have hne : target_inds s ≠ [] := fun hnil => by
    rw [hnil] at hp
    cases hp
  obtain ⟨hr, hc, _⟩ := mem_target_inds.1 hp
  obtain ⟨gy, hgy, gx, hgx, rfl⟩ := mem_grid hd
  have h1 : gy ≤ s.H - 1 := grid_ys_le hgy
  have h2 : gx ≤ s.W - 1 := grid_xs_le hgx
  have h3 : centroid_r s ≤ s.H - 1 := centroid_r_le s hne
  have h4 : centroid_c s ≤ s.W - 1 := centroid_c_le s hne
  dsimp only
  refine ⟨?_, ?_, ?_, ?_⟩
  · unfold reflect
    split <;> omega
  · unfold reflect
    split <;> omega
  · intro h
    unfold reflect
    rw [if_pos h]
  · unfold inBounds reflectPair
    simp only [Bool.and_eq_true, decide_eq_true_eq]
    rw [reflect_nonneg_iff, reflect_nonneg_iff]
    constructor
    · rintro ⟨⟨a1, a2⟩, a3, a4⟩
      exact ⟨a1, a2, a3, a4⟩
    · rintro ⟨a1, a2, a3, a4⟩
      exact ⟨⟨a1, a2⟩, a3, a4⟩

/-- Witness for `C3_amended` at a concrete pixel and grid offset. -/
theorem C3_amended_witness :
    ((26, 1) : Pix) ∈ target_inds sceneVis ∧
    ((-26, -1) : ℤ × ℤ) ∈ grid sceneVis ∧
    -(sceneVis.H : ℤ) ≤ reflect sceneVis.H ((26 : ℤ) + (-26)) ∧
    reflect sceneVis.H ((26 : ℤ) + (-26)) < (sceneVis.H : ℤ) := by
  have h1 : ((26, 1) : Pix) ∈ target_inds sceneVis := by with_unfolding_all decide
  have h2 : ((-26, -1) : ℤ × ℤ) ∈ grid sceneVis := by with_unfolding_all decide
  have h3 := (C3_amended sceneVis (26, 1) (-26, -1) h1 h2).1
  exact ⟨h1, h2, h3.1, h3.2⟩

/-- C3 counterexample: in the 3d search on `sceneRot`, the quarter-turn
rotation maps the amodal pixel (40,1) to column -19; with the in-grid
offset (-20, -1) the transformed column is -20, which reflection leaves
unchanged and which is outside the numpy-addressable range `[-3, 3)` of
a width-3 image — an out-of-range access. -/
theorem C3_counterexample :
    trans_3d sceneRot 4 (-20, -1) ∈ cands_3d sceneRot ∧
    (((40, 1) : Pix), ((0 : ℤ), (-20 : ℤ))) ∈ trans_3d sceneRot 4 (-20, -1) ∧
    reflect sceneRot.W (-20) = -20 ∧
    ¬(-(sceneRot.W : ℤ) ≤ reflect sceneRot.W (-20)) := by
  have htarget : target_inds sceneRot = [(0, 1), (40, 1)] := by
    with_unfolding_all decide
  have hcr : centroid_r_real sceneRot = 20 := by
    rw [centroid_r_real, htarget]
    norm_num
  have hcc : centroid_c_real sceneRot = 1 := by
    rw [centroid_c_real, htarget]
    norm_num
  have hangle : rot_angle 4 = Real.pi / 2 := by
    rw [rot_angle]
    push_cast
    ring
  have hrow : Real.cos (Real.pi / 2) * ((((40, 1) : Pix).1 : ℝ) - 20) +
      Real.sin (Real.pi / 2) * ((((40, 1) : Pix).2 : ℝ) - 1) + 20 = ((20 : ℤ) : ℝ) := by
    rw [Real.cos_pi_div_two, Real.sin_pi_div_two]
    norm_num
  have hcol : -Real.sin (Real.pi / 2) * ((((40, 1) : Pix).1 : ℝ) - 20) +
      Real.cos (Real.pi / 2) * ((((40, 1) : Pix).2 : ℝ) - 1) + 1 = ((-19 : ℤ) : ℝ) := by
    rw [Real.cos_pi_div_two, Real.sin_pi_div_two]
    norm_num
  have hrot : rotPix (centroid_r_real sceneRot) (centroid_c_real sceneRot)
      (rot_angle 4) ((40, 1) : Pix) = (20, -19) := by
    rw [hcr, hcc, hangle]
    unfold rotPix
    rw [hrow, hcol, truncInt_intCast, truncInt_intCast]
  have hgrid : ((-20, -1) : ℤ × ℤ) ∈ grid sceneRot := by
    with_unfolding_all decide
  refine ⟨?_, ?_, by with_unfolding_all decide, by with_unfolding_all decide⟩
  · exact List.mem_flatMap.2 ⟨4, by simp, List.mem_map_of_mem _ hgrid⟩
  · unfold trans_3d
    rw [htarget]
    simp only [List.map_cons, List.map_nil, hrot]
    right
    left


/-- C7 counterexample: `sceneVis` is a fully visible (unoccluded) target
whose truncated centroid row 26 is not among the 38 sampled row values
of a height-41 image, so the candidate enumeration contains no
zero-translation candidate. -/
theorem C7_counterexample :
    target_inds sceneVis = [(26, 1)] ∧
    modalCount sceneVis = (target_inds sceneVis).length ∧
    ((0, 0) : ℤ × ℤ) ∉ grid sceneVis := by
  refine ⟨by with_unfolding_all decide, by with_unfolding_all decide,
    by with_unfolding_all decide⟩

/-- C7 (amended): when the image is small enough for the sampled grid to
contain every offset (height at most 38 and width at most 51), the
candidate enumeration of the 2d search contains the zero-translation
candidate for any nonempty unoccluded target, that candidate's IoU with
the original modal mask is exactly 1, and it satisfies the match
condition. -/
theorem C7_amended (s : Scene)
    (hH : s.H ≤ 38) (hW : s.W ≤ 51) (hne : target_inds s ≠ [])
    (hall : ∀ p ∈ target_inds s, modalMask s p.1 p.2 = true) :
    ((0, 0) : ℤ × ℤ) ∈ grid s ∧
    trans_2d s (0, 0) ∈ cands_2d s ∧
    maskIoU s (trans_2d s (0, 0)) = 1 ∧
    candMatches s (iou_thresh_2d (modalCount s)) (trans_2d s (0, 0)) = true := by
  have hcy : centroid_r s ≤ s.H - 1 := centroid_r_le s hne
  have hcx : centroid_c s ≤ s.W - 1 := centroid_c_le s hne
  obtain ⟨j, hj, hjeq⟩ :=
    div_cover (show 0 < 37 by norm_num) (show s.H - 1 ≤ 37 by omega) hcy
  have hgy : centroid_r s ∈ grid_ys s := by
    unfold grid_ys
    exact List.mem_map.2 ⟨j, List.mem_range.2 (by omega), hjeq⟩
  obtain ⟨i, hi, hieq⟩ :=
    div_cover (show 0 < 50 by norm_num) (show s.W - 1 ≤ 50 by omega) hcx
  have hgx : centroid_c s ∈ grid_xs s := by
    unfold grid_xs
    exact List.mem_map.2 ⟨i, List.mem_range.2 (by omega), hieq⟩
  have hgrid : ((0, 0) : ℤ × ℤ) ∈ grid s := by
    unfold grid
    refine List.mem_flatMap.2
      ⟨centroid_c s, hgx, List.mem_map.2 ⟨centroid_r s, hgy, ?_⟩⟩
    simp
  have htr : trans_2d s (0, 0) =
      (target_inds s).map (fun p => (p, ((p.1 : ℤ), (p.2 : ℤ)))) := by
    unfold trans_2d
    apply List.map_congr_left
    intro p _
    simp
  have hr1 : ∀ p ∈ target_inds s, reflect s.H (p.1 : ℤ) = (p.1 : ℤ) := by
    intro p hp
    exact reflect_of_lt (by exact_mod_cast (mem_target_inds.1 hp).1)
  have hr2 : ∀ p ∈ target_inds s, reflect s.W (p.2 : ℤ) = (p.2 : ℤ) := by
    intro p hp
    exact reflect_of_lt (by exact_mod_cast (mem_target_inds.1 hp).2.1)
  have hw1 : ∀ p ∈ target_inds s, wrapIdx s.H (p.1 : ℤ) = p.1 := by
    intro p hp
    have h := wrapIdx_of_range (Int.natCast_nonneg p.1)
      (by exact_mod_cast (mem_target_inds.1 hp).1)
    exact_mod_cast h
  have hw2 : ∀ p ∈ target_inds s, wrapIdx s.W (p.2 : ℤ) = p.2 := by
    intro p hp
    have h := wrapIdx_of_range (Int.natCast_nonneg p.2)
      (by exact_mod_cast (mem_target_inds.1 hp).2.1)
    exact_mod_cast h
  have hvp : ∀ p ∈ target_inds s,
      visiblePix s (p, ((p.1 : ℤ), (p.2 : ℤ))) = true := by
    intro p hp
    have hb : inBounds s ((p.1 : ℤ), (p.2 : ℤ)) = true := by
      unfold inBounds reflectPair
      dsimp only
      rw [hr1 p hp, hr2 p hp]
      simp [Int.natCast_nonneg]
    have hda : ∀ img : ℕ → ℕ → ℚ,
        depthAt s img ((p.1 : ℤ), (p.2 : ℤ)) = img p.1 p.2 := by
      intro img
      unfold depthAt reflectPair
      dsimp only
      rw [hr1 p hp, hr2 p hp, hw1 p hp, hw2 p hp]
    have hmod := hall p hp
    unfold modalMask at hmod
    rw [decide_eq_true_iff] at hmod
    unfold visiblePix
    rw [hb, Bool.and_true, decide_eq_true_iff]
    dsimp only
    rw [hda, hda]
    unfold depthOffset
    linarith
  have hfilter : (trans_2d s (0, 0)).filter (visiblePix s) = trans_2d s (0, 0) := by
    apply List.filter_eq_self.2
    intro e he
    rw [htr] at he
    rcases List.mem_map.1 he with ⟨p, hp, rfl⟩
    exact hvp p hp
  have hviscount : visCount s (trans_2d s (0, 0)) = (target_inds s).length := by
    unfold visCount
    rw [hfilter, htr, List.length_map]
  have hwrap : ∀ p ∈ target_inds s,
      ((fun e : CandPix =>
        (wrapIdx s.H (reflectPair s e.2).1, wrapIdx s.W (reflectPair s e.2).2)) ∘
       (fun p : Pix => (p, ((p.1 : ℤ), (p.2 : ℤ))))) p = id p := by
    intro p hp
    show (wrapIdx s.H (reflect s.H (p.1 : ℤ)), wrapIdx s.W (reflect s.W (p.2 : ℤ))) = p
    rw [hr1 p hp, hr2 p hp, hw1 p hp, hw2 p hp]
  have hhit : hitCoords s (trans_2d s (0, 0)) = target_inds s := by
    unfold hitCoords
    rw [hfilter, htr, List.map_map, List.map_congr_left hwrap, List.map_id]
  have hdedup : (target_inds s).dedup = target_inds s :=
    List.dedup_eq_self.2 (target_inds_nodup s)
  have hmodall : (target_inds s).filter (fun p => modalMask s p.1 p.2) =
      target_inds s :=
    List.filter_eq_self.2 (fun p hp => hall p hp)
  have hmc : modalCount s = (target_inds s).length := by
    unfold modalCount
    rw [hmodall]
  have hinter : interCount s (trans_2d s (0, 0)) = (target_inds s).length := by
    unfold interCount
    rw [hhit, hdedup, List.countP_eq_length_filter, hmodall]
  have hnz : ((target_inds s).length : ℚ) ≠ 0 := by
    have hpos : 0 < (target_inds s).length := List.length_pos.2 hne
    exact_mod_cast Nat.pos_iff_ne_zero.1 hpos
  have hiou : maskIoU s (trans_2d s (0, 0)) = 1 := by
    unfold maskIoU
    rw [hinter, hviscount, hmc]
    have harith : ((target_inds s).length : ℚ) + ((target_inds s).length : ℚ) -
        ((target_inds s).length : ℚ) = ((target_inds s).length : ℚ) := by ring
    rw [harith, div_self hnz]
  have hth : iou_thresh_2d (modalCount s) ≤ 1 := by
    unfold iou_thresh_2d
    calc min (9/10 : ℚ) (((modalCount s : ℚ) - 2) / (modalCount s : ℚ))
        ≤ 9/10 := min_le_left _ _
      _ ≤ 1 := by norm_num
  have hcm2 : candMatches s (iou_thresh_2d (modalCount s)) (trans_2d s (0, 0)) = true := by
    unfold candMatches
    rw [hiou]
    exact decide_eq_true hth
  exact ⟨hgrid, List.mem_map_of_mem _ hgrid, hiou, hcm2⟩

/-- Witness for `C7_amended` on a 2 × 2 unoccluded scene. -/
theorem C7_amended_witness :
    (sceneSmall.H ≤ 38 ∧ sceneSmall.W ≤ 51 ∧ target_inds sceneSmall ≠ [] ∧
      (∀ p ∈ target_inds sceneSmall, modalMask sceneSmall p.1 p.2 = true)) ∧
    ((0, 0) : ℤ × ℤ) ∈ grid sceneSmall ∧
    maskIoU sceneSmall (trans_2d sceneSmall (0, 0)) = 1 ∧
    candMatches sceneSmall (iou_thresh_2d (modalCount sceneSmall))
      (trans_2d sceneSmall (0, 0)) = true := by
  have h1 : sceneSmall.H ≤ 38 := by norm_num [sceneSmall]
  have h2 : sceneSmall.W ≤ 51 := by norm_num [sceneSmall]
  have h3 : target_inds sceneSmall ≠ [] := by with_unfolding_all decide
  have h4 : ∀ p ∈ target_inds sceneSmall, modalMask sceneSmall p.1 p.2 = true := by
    with_unfolding_all decide
  obtain ⟨g1, _, g3, g4⟩ := C7_amended sceneSmall h1 h2 h3 h4
  exact ⟨⟨h1, h2, h3, h4⟩, g1, g3, g4⟩


/-- C8 (amended): the 3d search crosses the translation grid with the 16
rotation angles `k * 2pi / 16` — evenly spaced by `2pi/16`, covering a
full turn, 16 candidates per grid offset — applied about the real
centroid; the angle-zero rotation is the identity on pixel indices, and
the rotated real coordinates are snapped to integers by truncation
toward zero (numpy `astype(int)`), not by nearest-integer rounding (see
the counterexample). -/
theorem C8_amended (s : Scene) (p : Pix) (cr cc : ℝ) :
    (∀ k : ℕ, rot_angle (k + 1) - rot_angle k = 2 * Real.pi / 16) ∧
    rot_angle 0 = 0 ∧
    rot_angle 16 = 2 * Real.pi ∧
    (cands_3d s).length = 16 * (grid s).length ∧
    rotPix cr cc (rot_angle 0) p = ((p.1 : ℤ), (p.2 : ℤ)) := by
  have hzero : rot_angle 0 = 0 := by
    unfold rot_angle
    norm_num
  refine ⟨?_, hzero, ?_, ?_, ?_⟩
  · intro k
    unfold rot_angle
    push_cast
    ring
  · unfold rot_angle
    push_cast
    ring
  · unfold cands_3d
    have hmem : ∀ b ∈ (List.range 16).map
        (List.length ∘ fun k => (grid s).map (trans_3d s k)), b = (grid s).length := by
      intro b hb
      rcases List.mem_map.1 hb with ⟨k, _, rfl⟩
      exact List.length_map _ _
    have hconst : (List.range 16).map
        (List.length ∘ fun k => (grid s).map (trans_3d s k)) =
        List.replicate 16 (grid s).length := by
      have h2 := List.eq_replicate_of_mem hmem
      simpa using h2
    rw [List.length_flatMap, hconst, List.sum_replicate, smul_eq_mul]
  · have hc : Real.cos (rot_angle 0) = 1 := by rw [hzero, Real.cos_zero]
    have hs : Real.sin (rot_angle 0) = 0 := by rw [hzero, Real.sin_zero]
    unfold rotPix
    rw [hc, hs]
    have e1 : (1 : ℝ) * ((p.1 : ℝ) - cr) + (0 : ℝ) * ((p.2 : ℝ) - cc) + cr =
        (((p.1 : ℤ)) : ℝ) := by
      push_cast
      ring
    have e2 : -(0 : ℝ) * ((p.1 : ℝ) - cr) + (1 : ℝ) * ((p.2 : ℝ) - cc) + cc =
        (((p.2 : ℤ)) : ℝ) := by
      push_cast
      ring
    rw [e1, e2, truncInt_intCast, truncInt_intCast]

/-- C8 counterexample: on `sceneRound` the half-turn rotation (angle
index 8) maps pixel (0,0), whose centroid-relative row is `-1/3`, to the
real row `2/3`; numpy truncation snaps it to row 0, while the claimed
nearest-integer snapping would give row 1. -/
theorem C8_counterexample :
    (rotPix (centroid_r_real sceneRound) (centroid_c_real sceneRound)
      (rot_angle 8) ((0, 0) : Pix)).1 = 0 ∧
    (spec_rot_pix (centroid_r_real sceneRound) (centroid_c_real sceneRound)
      (rot_angle 8) ((0, 0) : Pix)).1 = 1 := by
  have htarget : target_inds sceneRound = [(0, 0), (0, 1), (1, 2)] := by
    with_unfolding_all decide
  have hcr : centroid_r_real sceneRound = 1/3 := by
    rw [centroid_r_real, htarget]
    norm_num
  have hcc : centroid_c_real sceneRound = 1 := by
    rw [centroid_c_real, htarget]
    norm_num
  have hangle : rot_angle 8 = Real.pi := by
    rw [rot_angle]
    push_cast
    ring
  have hval : Real.cos Real.pi * ((((0, 0) : Pix).1 : ℝ) - 1/3) +
      Real.sin Real.pi * ((((0, 0) : Pix).2 : ℝ) - 1) + 1/3 = 2/3 := by
    rw [Real.cos_pi, Real.sin_pi]
    norm_num
  constructor
  · rw [hcr, hcc, hangle]
    unfold rotPix
    dsimp only
    rw [hval]
    unfold truncInt
    rw [if_pos (by norm_num : (0 : ℝ) ≤ 2/3)]
    rw [Int.floor_eq_iff]
    norm_num
  · rw [hcr, hcc, hangle]
    unfold spec_rot_pix
    dsimp only
    rw [hval, round_eq]
    rw [show (2/3 : ℝ) + 1/2 = 7/6 by norm_num]
    rw [Int.floor_eq_iff]
    norm_num

end SDMaskRCNN
